import Mathlib

/-!
A shallow embedding of `ristei.py`, a converter from RIS bibliographic
records to TEI `biblStruct` XML, together with theorems about the
embedded functions.

Python strings are modelled as `String`/`List Char`; Python exceptions
that escape a function are modelled with `Except Unit` (or `Option`
where only one failure mode exists); Python `None`-or-value results are
`Option`.
-/

namespace Ristei

/-- Python's whitespace set, as used by `str.strip()` and by `\s` in
regular expressions over `str` (Unicode mode). -/
def pyIsSpace (c : Char) : Bool :=
  c = ' ' || c = '\t' || c = '\n' || c = '\r' || c = '\x0b' || c = '\x0c' ||
  c = '\x1c' || c = '\x1d' || c = '\x1e' || c = '\x1f' || c = '\x85' ||
  c = '\xa0' || c = ' ' || (' ' ≤ c && c ≤ ' ') ||
  c = ' ' || c = ' ' || c = ' ' || c = ' ' || c = '　'

/-- `str.strip()` on a character list. -/
def pyStripChars (s : List Char) : List Char :=
  ((s.dropWhile pyIsSpace).reverse.dropWhile pyIsSpace).reverse

/-- `str.strip()`. -/
def strip (s : String) : String := ⟨pyStripChars s.data⟩

/-- `str.split(sep)` for a non-empty separator `a :: sep`, with explicit
fuel (any fuel at least the length of the input gives the same result):
split on every leftmost, non-overlapping occurrence of the separator. -/
def pySplitF (a : Char) (sep : List Char) : Nat → List Char → List (List Char)
  | _, [] => [[]]
  | 0, s => [s]
  | fuel + 1, c :: rest =>
    if (a :: sep).isPrefixOf (c :: rest) then
      [] :: pySplitF a sep fuel (rest.drop sep.length)
    else
      match pySplitF a sep fuel rest with
      | [] => [[c]]
      | h :: t => (c :: h) :: t

/-- `str.split(sep)` for a non-empty separator `a :: sep`. -/
def pySplitNE (a : Char) (sep s : List Char) : List (List Char) :=
  pySplitF a sep s.length s

/-- `str.split(sep)` at `String` level; `sep` must be non-empty
(`str.split` raises on an empty separator, and the program never
passes one). -/
def pySplitStr (sep : String) (s : String) : List String :=
  match sep.data with
  | [] => [s]
  | a :: rest => (pySplitNE a rest s.data).map (fun cs => ⟨cs⟩)

/-- Whether `sep` occurs as a contiguous sublist. -/
def containsSub (sep : List Char) : List Char → Bool
  | [] => sep.isPrefixOf []
  | c :: rest => sep.isPrefixOf (c :: rest) || containsSub sep rest

/-- Joining with a separator, the inverse of splitting. -/
def joinSep (sep : List Char) : List (List Char) → List Char
  | [] => []
  | [x] => x
  | x :: y :: t => x ++ sep ++ joinSep sep (y :: t)

/-- `int(s)` for the decimal forms the program can meet: optional
surrounding whitespace, optional sign, ASCII digits. Returns `none`
where `int()` raises `ValueError`. -/
def pyInt? (s : String) : Option Int :=
  let t := pyStripChars s.data
  match t with
  | '-' :: ds =>
    if ds ≠ [] && ds.all Char.isDigit then
      some (-(Int.ofNat (ds.foldl (fun n c => 10 * n + (c.toNat - '0'.toNat)) 0)))
    else none
  | '+' :: ds =>
    if ds ≠ [] && ds.all Char.isDigit then
      some (Int.ofNat (ds.foldl (fun n c => 10 * n + (c.toNat - '0'.toNat)) 0))
    else none
  | ds =>
    if ds ≠ [] && ds.all Char.isDigit then
      some (Int.ofNat (ds.foldl (fun n c => 10 * n + (c.toNat - '0'.toNat)) 0))
    else none

/-- A DOM element tree, the shape built through `xml.dom.minidom` by the
program: an element has a name, its attributes in `setAttribute` order,
and its children in `appendChild` order. -/
inductive Node where
  | text (s : String)
  | elem (name : String) (attrs : List (String × String)) (children : List Node)

/-- `createTextElement(name, value)`. -/
def createTextElement (name v : String) : Node := .elem name [] [.text v]

/-- Element name (empty for a text node). -/
def nodeName : Node → String
  | .text _ => ""
  | .elem n _ _ => n

/-- Children of a node. -/
def childrenOf : Node → List Node
  | .text _ => []
  | .elem _ _ cs => cs

/-- Whether some child element carries the given name. -/
def hasChildNamed (n : Node) (nm : String) : Bool :=
  (childrenOf n).any (fun c => nodeName c = nm)

/-- The names of a node's children, in order. -/
def childNames (n : Node) : List String := (childrenOf n).map nodeName

/-- `RISDate`: year plus optional month and season, as the constructor
leaves them. `none` models an attribute left at its Python default
`None`; the stored strings may be empty (both are falsy in the code). -/
structure RISDate where
  year : String
  month : Option String
  season : Option String
deriving DecidableEq

/-- Python truthiness of a string-or-None attribute. -/
def truthy (o : Option String) : Bool := o.getD "" ≠ ""

/-- `RISDate.__init__`: split the value on `/`; the year is segment 0
and must be non-empty; month is segment 1 and season segment 3 when
present (the `IndexError` of a short split is swallowed). `none` models
the constructor raising `ValueError`. -/
def mkRISDate (value : String) : Option RISDate :=
  if value = "" then none
  else
    let parts := pySplitStr "/" value
    let year := parts.headD ""
    if year = "" then none
    else some ⟨year, parts.get? 1, parts.get? 3⟩

/-- The month names produced by `datetime.date.strftime('%B')`. -/
def monthNames : List String :=
  ["January", "February", "March", "April", "May", "June", "July",
   "August", "September", "October", "November", "December"]

/-- `RISDate.toValue`: season wins, else month (converted through
`datetime.date(int(year), int(month), 1)`, which raises `ValueError`
outside 1 ≤ year ≤ 9999 or 1 ≤ month ≤ 12 or on non-numeric input —
modelled by `none`), else the bare year. -/
def RISDate.toValue (d : RISDate) : Option String :=
  if truthy d.season then some (d.season.getD "" ++ " " ++ d.year)
  else if truthy d.month then
    match pyInt? d.year, pyInt? (d.month.getD "") with
    | some y, some m =>
      if 1 ≤ y && y ≤ 9999 && 1 ≤ m && m ≤ 12 then
        (monthNames.get? (m.toNat - 1)).map (fun nm => nm ++ " " ++ d.year)
      else none
    | _, _ => none
  else some d.year

/-- `RISDate.toAttr`: `"{year}-{month}"` when the month is truthy,
else the bare year. -/
def RISDate.toAttr (d : RISDate) : String :=
  if truthy d.month then d.year ++ "-" ++ d.month.getD "" else d.year

/-- Python dict insertion: replace the value of an existing key in
place, otherwise append the new binding. -/
def dictInsert (d : List (String × String)) (k v : String) :
    List (String × String) :=
  if d.any (fun p => p.1 = k) then
    d.map (fun p => if p.1 = k then (k, v) else p)
  else d ++ [(k, v)]

/-- `{k: v.strip() for k, v in kv_pairs}`: build the lookup dict,
later occurrences of a tag overwriting earlier ones. -/
def mkDict (pairs : List (String × String)) : List (String × String) :=
  pairs.foldl (fun d p => dictInsert d p.1 (strip p.2)) []

/-- Dict lookup. -/
def dictGet (d : List (String × String)) (k : String) : Option String :=
  (d.find? (fun p => p.1 = k)).map (fun p => p.2)

/-- The value of the last occurrence of a tag in a pair list. -/
def lastVal (pairs : List (String × String)) (k : String) : Option String :=
  (pairs.reverse.find? (fun p => p.1 = k)).map (fun p => p.2)

/-- The state of a `BiblioItem` after `__init__`: the author and editor
sequences (all occurrences, in order, trimmed) and the flat tag→value
dict (last occurrence wins, values trimmed). -/
structure BiblioItem where
  authors : List String
  editors : List String
  values : List (String × String)

/-- Field lookup on a record (`self.values[key]` guarded by `in`). -/
def getVal (r : BiblioItem) (k : String) : Option String := dictGet r.values k

/-- Interpret one raw split line as a (tag, value) pair; a list whose
length is not exactly 2 makes the `for k, v in kv_pairs` unpacking of
`BiblioItem.__init__` raise `ValueError`. -/
def unpack2 (e : List String) : Option (String × String) :=
  match e with
  | [k, v] => some (k, v)
  | _ => none

/-- All entries unpacked, or `none` as soon as one entry is not a
two-item list. -/
def unpackAll : List (List String) → Option (List (String × String))
  | [] => some []
  | e :: rest =>
    match unpack2 e with
    | none => none
    | some p =>
      match unpackAll rest with
      | none => none
      | some ps => some (p :: ps)

/-- `BiblioItem.__init__` over the accumulated split lines. `.error ()`
models the uncaught `ValueError` raised when some line did not split
into exactly a tag and a value. -/
def mkBiblioItem (kv : List (List String)) : Except Unit BiblioItem :=
  match unpackAll kv with
  | none => .error ()
  | some pairs =>
    .ok { authors := (pairs.filter
            (fun p => p.1 = "AU" || p.1 = "A1")).map (fun p => strip p.2)
        , editors := (pairs.filter (fun p => p.1 = "A3")).map
            (fun p => strip p.2)
        , values := mkDict pairs }

/-- The character class `[std]` of `dumb_apostrophes`, case-insensitive. -/
def isSTD (c : Char) : Bool :=
  c = 's' || c = 'S' || c = 't' || c = 'T' || c = 'd' || c = 'D'

/-- A case-insensitive letter `l`, for the `ll` alternative. -/
def isEll (c : Char) : Bool := c = 'l' || c = 'L'

/-- `re.sub` for the pattern `(\S)'([std]|ll)` (case-insensitive) with
replacement `\1’\2`: scan left to right; at a match emit the group-1
character, a typographic apostrophe and group 2, and resume after the
match; otherwise emit one character and advance. -/
def fixApost : List Char → List Char
  | c0 :: '\'' :: c2 :: c3 :: rest3 =>
    if pyIsSpace c0 then c0 :: fixApost ('\'' :: c2 :: c3 :: rest3)
    else if isSTD c2 then c0 :: '’' :: c2 :: fixApost (c3 :: rest3)
    else if isEll c2 && isEll c3 then c0 :: '’' :: c2 :: c3 :: fixApost rest3
    else c0 :: fixApost ('\'' :: c2 :: c3 :: rest3)
  | c0 :: '\'' :: c2 :: [] =>
    if pyIsSpace c0 then c0 :: fixApost ['\'', c2]
    else if isSTD c2 then [c0, '’', c2]
    else c0 :: fixApost ['\'', c2]
  | c0 :: rest => c0 :: fixApost rest
  | [] => []

/-- Whether the `dumb_apostrophes` pattern matches anywhere in the
string (`re.search`). -/
def hasPattern : List Char → Bool
  | c0 :: '\'' :: c2 :: c3 :: rest3 =>
    if pyIsSpace c0 then hasPattern ('\'' :: c2 :: c3 :: rest3)
    else if isSTD c2 then true
    else if isEll c2 && isEll c3 then true
    else hasPattern ('\'' :: c2 :: c3 :: rest3)
  | c0 :: '\'' :: c2 :: [] =>
    if pyIsSpace c0 then hasPattern ['\'', c2]
    else if isSTD c2 then true
    else hasPattern ['\'', c2]
  | _ :: rest => hasPattern rest
  | [] => false

/-- `BiblioItem.fix_dumb_typography` (search-then-sub collapses to the
substitution itself). -/
def fixTypog (s : String) : String := ⟨fixApost s.data⟩

/-- `re.sub` for `DOI:\s*` (case-insensitive) with replacement `""`,
with explicit fuel (any fuel at least the length of the input gives the
same result): each occurrence of `DOI:` and the greedy run of
whitespace after it is deleted, scanning resuming after the deleted
text. -/
def doiSubF : Nat → List Char → List Char
  | 0, s => s
  | fuel + 1, c1 :: c2 :: c3 :: c4 :: rest =>
    if (c1 = 'D' || c1 = 'd') && (c2 = 'O' || c2 = 'o') &&
       (c3 = 'I' || c3 = 'i') && c4 = ':' then
      doiSubF fuel (rest.dropWhile pyIsSpace)
    else c1 :: doiSubF fuel (c2 :: c3 :: c4 :: rest)
  | _ + 1, other => other

/-- `re.sub` for `DOI:\s*` with replacement `""`. -/
def doiSub (s : List Char) : List Char := doiSubF s.length s

/-- `BiblioItem.createElementFrom`: scan the candidate keys in order;
for the first one present, build a text element from the
typography-fixed value, with the optional attribute set. -/
def createElementFrom (r : BiblioItem) (name : String) (keys : List String)
    (attrs : Option (String × String)) : Option Node :=
  match keys with
  | [] => none
  | k :: ks =>
    match getVal r k with
    | some v =>
      some (.elem name (match attrs with | some a => [a] | none => [])
        [.text (fixTypog v)])
    | none => createElementFrom r name ks attrs

/-- `BiblioItem.person`: split the name on every comma; the surname is
the trimmed segment 0 and the forename the trimmed segment 1, appended
forename first. `none` models the uncaught `IndexError` when the name
holds no comma. -/
def person (name : String) : Option Node :=
  match pySplitStr "," name with
  | n0 :: n1 :: _ =>
    some (.elem "persName" []
      [createTextElement "forename" (strip n1),
       createTextElement "surname" (strip n0)])
  | _ => none

/-- `BiblioItem.authorship`. -/
def authorship (name : String) : Option Node :=
  (person name).map (fun p => .elem "author" [] [p])

/-- `BiblioItem.editorship`. -/
def editorship (name : String) : Option Node :=
  (person name).map (fun p => .elem "editor" [] [p])

/-- `BiblioItem.date`: `Y1` first, else `PY`; a falsy (absent or empty)
value yields nothing; a `ValueError` anywhere inside the `try` —
constructor or month conversion — is caught and yields nothing. -/
def dateEl (r : BiblioItem) : Option Node :=
  let date :=
    match getVal r "Y1" with
    | some v => v
    | none => (getVal r "PY").getD ""
  if date = "" then none
  else
    match mkRISDate date with
    | none => none
    | some rd =>
      match rd.toValue with
      | none => none
      | some disp => some (.elem "date" [("when", rd.toAttr)] [.text disp])

/-- `BiblioItem.title`. -/
def titleEl (r : BiblioItem) : Option Node :=
  createElementFrom r "title" ["TI", "T1"] none

/-- `BiblioItem.series_title`. -/
def seriesTitle (r : BiblioItem) : Option Node :=
  createElementFrom r "title" ["T2", "T3"] (some ("level", "s"))

/-- `BiblioItem.pub_place`. -/
def pubPlace (r : BiblioItem) : Option Node :=
  createElementFrom r "pubPlace" ["CY"] none

/-- `BiblioItem.publisher`. -/
def publisherEl (r : BiblioItem) : Option Node :=
  createElementFrom r "publisher" ["PB"] none

/-- `BiblioItem.series`: a `series` element is returned only when a
series title exists. -/
def seriesEl (r : BiblioItem) : Option Node :=
  (seriesTitle r).map (fun t => .elem "series" [] [t])

/-- `BiblioItem.imprint`: place, publisher and date in order, each
optional; the imprint element itself is always returned. -/
def imprintEl (r : BiblioItem) : Node :=
  .elem "imprint" []
    ((pubPlace r).toList ++ (publisherEl r).toList ++ (dateEl r).toList)

/-- `Book.isbn`. -/
def isbn (r : BiblioItem) : Option Node :=
  createElementFrom r "idno" ["SN"] (some ("type", "ISBN"))

/-- Mapping a fallible element builder over a list, stopping at the
first raise (`none`). -/
def mapO {α β : Type} (f : α → Option β) : List α → Option (List β)
  | [] => some []
  | a :: as =>
    match f a with
    | none => none
    | some b => (mapO f as).map (fun bs => b :: bs)

/-- `Book.monogr`: authors, editors, title, ISBN, imprint. The `series`
element built at the end is appended to itself
(`series.appendChild(series)`), which in minidom raises nothing and
attaches the element to no ancestor, so the returned root never
carries it. `.error ()` models the `IndexError` person() raises on a
comma-less name. -/
def bookMonogr (r : BiblioItem) : Except Unit Node :=
  match mapO authorship r.authors with
  | none => .error ()
  | some auths =>
    match mapO editorship r.editors with
    | none => .error ()
    | some eds =>
      .ok (.elem "monogr" []
        (auths ++ eds ++ (titleEl r).toList ++ (isbn r).toList ++
          [imprintEl r]))

/-- `BiblioItem.toXML` for a `Book`: analytic is the base default
(`None`), then monogr, then the base series. -/
def bookToXML (r : BiblioItem) : Except Unit Node :=
  match bookMonogr r with
  | .error e => .error e
  | .ok m => .ok (.elem "biblStruct" [] ([m] ++ (seriesEl r).toList))

/-- `Journal.doi`: the `DO` value with every `DOI:\s*` occurrence
removed, typed `DOI`. -/
def doiEl (r : BiblioItem) : Option Node :=
  match getVal r "DO" with
  | none => none
  | some v => some (.elem "idno" [("type", "DOI")] [.text ⟨doiSub v.data⟩])

/-- `Journal.issn`. -/
def issn (r : BiblioItem) : Option Node :=
  createElementFrom r "idno" ["SN"] (some ("type", "ISSN"))

/-- `Journal.journal_title`. -/
def journalTitle (r : BiblioItem) : Option Node :=
  createElementFrom r "title" ["JO", "T2"] (some ("level", "j"))

/-- `Journal.volume`. -/
def volumeEl (r : BiblioItem) : Option Node :=
  createElementFrom r "biblScope" ["VL"] (some ("unit", "volume"))

/-- `Journal.issue`. -/
def issueEl (r : BiblioItem) : Option Node :=
  createElementFrom r "biblScope" ["IS"] (some ("unit", "issue"))

/-- The page-range element: text `start–end` (en dash) and attributes
`unit`, `from`, `to` in `setAttribute` order. -/
def pageElem (s e : String) : Node :=
  .elem "biblScope" [("unit", "page"), ("from", s), ("to", e)]
    [.text (s ++ "–" ++ e)]

/-- `Journal.pages`: with `SP` and `EP` both present and truthy, use
them directly. With `EP` absent, split `SP` on `-`; if the split has no
second part the `IndexError` is caught and a warning logged, but the
subsequent `if start_page and end_page` then reads the never-assigned
`end_page`, raising an uncaught `UnboundLocalError` — modelled by
`.error ()`. -/
def pagesEl (r : BiblioItem) : Except Unit (Option Node) :=
  match getVal r "SP" with
  | none => .ok none
  | some sp =>
    match getVal r "EP" with
    | some ep =>
      if sp ≠ "" && ep ≠ "" then .ok (some (pageElem sp ep)) else .ok none
    | none =>
      let parts := pySplitStr "-" sp
      match parts.get? 1 with
      | none => .error ()
      | some ep2 =>
        let sp2 := parts.headD ""
        if sp2 ≠ "" && ep2 ≠ "" then .ok (some (pageElem sp2 ep2))
        else .ok none

/-- `Journal.analytic`: authors, title, DOI, ISSN. -/
def journalAnalytic (r : BiblioItem) : Except Unit Node :=
  match mapO authorship r.authors with
  | none => .error ()
  | some auths =>
    .ok (.elem "analytic" []
      (auths ++ (titleEl r).toList ++ (doiEl r).toList ++ (issn r).toList))

/-- `Journal.monogr`: journal title, imprint, volume, issue, pages. -/
def journalMonogr (r : BiblioItem) : Except Unit Node :=
  match pagesEl r with
  | .error e => .error e
  | .ok p =>
    .ok (.elem "monogr" []
      ((journalTitle r).toList ++ [imprintEl r] ++ (volumeEl r).toList ++
        (issueEl r).toList ++ p.toList))

/-- `BiblioItem.toXML` for a `Journal`: analytic, then monogr, then the
base series. -/
def journalToXML (r : BiblioItem) : Except Unit Node :=
  match journalAnalytic r with
  | .error e => .error e
  | .ok a =>
    match journalMonogr r with
    | .error e => .error e
    | .ok m => .ok (.elem "biblStruct" [] ([a, m] ++ (seriesEl r).toList))

/-- The dispatch result of `TeiFile.add_record`. -/
inductive RecTy where
  | book
  | journal
deriving DecidableEq

/-- A record held in `TeiFile.records`. -/
structure TypedRec where
  ty : RecTy
  item : BiblioItem

/-- `record.toXML(doc)` dispatched by dynamic type. -/
def renderRecord (t : TypedRec) : Except Unit Node :=
  match t.ty with
  | .book => bookToXML t.item
  | .journal => journalToXML t.item

/-- `TeiFile.add_record`: the first pair's value, trimmed, selects the
variant; `JOUR` builds a `Journal`, the three book codes a `Book`, any
other code only prints a notice. `.error ()` models the `IndexError` of
`kv_pairs[0][1]` on an empty block or a short first pair, and the
constructor's `ValueError` on a malformed pair. -/
def addRecord (recs : List TypedRec) (kv : List (List String)) :
    Except Unit (List TypedRec) :=
  match kv.get? 0 with
  | none => .error ()
  | some first =>
    match first.get? 1 with
    | none => .error ()
    | some tyv =>
      let t := strip tyv
      if t = "JOUR" then
        match mkBiblioItem kv with
        | .error e => .error e
        | .ok r => .ok (recs ++ [⟨.journal, r⟩])
      else if t = "BOOK" || t = "EDBOOK" || t = "EBOOK" then
        match mkBiblioItem kv with
        | .error e => .error e
        | .ok r => .ok (recs ++ [⟨.book, r⟩])
      else .ok recs

/-- Mapping a fallible renderer over the records, stopping at the first
uncaught exception. -/
def mapE {α β : Type} (f : α → Except Unit β) : List α → Except Unit (List β)
  | [] => .ok []
  | a :: as =>
    match f a with
    | .error e => .error e
    | .ok b =>
      match mapE f as with
      | .error e => .error e
      | .ok bs => .ok (b :: bs)

/-- `TeiFile.toXML`: a `listBibl` root with one rendered fragment per
record, in insertion order. -/
def catalogToXML (recs : List TypedRec) : Except Unit Node :=
  match mapE renderRecord recs with
  | .error e => .error e
  | .ok kids => .ok (.elem "listBibl" [] kids)

/-- `line[:-1]`: unconditionally drop the final character of a line. -/
def dropLastChar (s : String) : String := ⟨s.data.dropLast⟩

/-- `TeiFile.separator`. -/
def fieldSeparator : String := "  -"

/-- One line of `TeiFile.parse`: drop the trailing character, then
split on the field separator. -/
def lineSplit (line : String) : List String :=
  pySplitStr fieldSeparator (dropLastChar line)

/-- `kv_pair[0]` for a line (a split result is never empty). -/
def tagOf (line : String) : String := (lineSplit line).headD ""

/-- One iteration of the line loop of `TeiFile.parse`: an `ER` tag
finalizes the accumulated pairs into a block and clears the
accumulator; any other line is appended to the accumulator. -/
def parseStep (st : List (List (List String)) × List (List String))
    (line : String) : List (List (List String)) × List (List String) :=
  let kv := lineSplit line
  if kv.headD "" = "ER" then (st.1 ++ [st.2], []) else (st.1, st.2 ++ [kv])

/-- The blocks `TeiFile.parse` hands to `add_record` for one file's
lines: pairs still accumulated when the file ends are discarded. -/
def parseBlocks (lines : List String) : List (List (List String)) :=
  (lines.foldl parseStep ([], [])).1

/-! ### General lemmas about the embedded string primitives -/

theorem pySplitF_nil (a : Char) (sep : List Char) (f : Nat) :
    pySplitF a sep f [] = [[]] := by
  cases f <;> rfl

theorem pySplitF_fuel (a : Char) (sep : List Char) :
    ∀ (f1 f2 : Nat) (s : List Char), s.length ≤ f1 → s.length ≤ f2 →
      pySplitF a sep f1 s = pySplitF a sep f2 s := by
  intro f1
  induction f1 with
  | zero =>
    intro f2 s h1 _
    have hs : s = [] := List.length_eq_zero.mp (Nat.le_zero.mp h1)
    subst hs
    rw [pySplitF_nil, pySplitF_nil]
  | succ g ih =>
    intro f2 s h1 h2
    cases s with
    | nil => rw [pySplitF_nil, pySplitF_nil]
    | cons c rest =>
      cases f2 with
      | zero => simp at h2
      | succ g2 =>
        simp only [List.length_cons, Nat.add_le_add_iff_right] at h1 h2
        simp only [pySplitF]
        by_cases hpre : (a :: sep).isPrefixOf (c :: rest)
        · simp only [hpre, if_true]
          have hd : (rest.drop sep.length).length ≤ rest.length := by
            rw [List.length_drop]; omega
          rw [ih g2 (rest.drop sep.length) (le_trans hd h1) (le_trans hd h2)]
        · rw [ih g2 rest h1 h2]
          simp [hpre]

theorem pySplitNE_cons (a : Char) (sep : List Char) (c : Char)
    (rest : List Char) :
    pySplitNE a sep (c :: rest) =
      if (a :: sep).isPrefixOf (c :: rest) then
        [] :: pySplitNE a sep (rest.drop sep.length)
      else
        match pySplitNE a sep rest with
        | [] => [[c]]
        | h :: t => (c :: h) :: t := by
  show pySplitF a sep (c :: rest).length (c :: rest) = _
  simp only [List.length_cons, pySplitF]
  rw [pySplitF_fuel a sep rest.length (rest.drop sep.length).length
    (rest.drop sep.length) (by rw [List.length_drop]; omega) (le_refl _)]
  rfl

theorem pySplitNE_ne_nil (a : Char) (sep s : List Char) :
    pySplitNE a sep s ≠ [] := by
  cases s with
  | nil => simp [pySplitNE, pySplitF_nil]
  | cons c rest =>
    rw [pySplitNE_cons]
    split
    · simp
    · split <;> simp

theorem joinSep_pySplitNE (a : Char) (sep : List Char) :
    ∀ (n : Nat) (s : List Char), s.length ≤ n →
      joinSep (a :: sep) (pySplitNE a sep s) = s := by
  intro n
  induction n with
  | zero =>
    intro s h
    have hs : s = [] := List.length_eq_zero.mp (Nat.le_zero.mp h)
    subst hs
    simp [pySplitNE, pySplitF_nil, joinSep]
  | succ n ih =>
    intro s h
    cases s with
    | nil => simp [pySplitNE, pySplitF_nil, joinSep]
    | cons c rest =>
      simp only [List.length_cons, Nat.add_le_add_iff_right] at h
      rw [pySplitNE_cons]
      by_cases hpre : (a :: sep).isPrefixOf (c :: rest)
      · simp only [hpre, if_true]
        obtain ⟨t, ht⟩ := List.isPrefixOf_iff_prefix.mp hpre
        have hc : c = a := by
          have := congrArg (fun l => l.headD ' ') ht
          simpa using this.symm
        have hrest : rest = sep ++ t := by
          have := congrArg List.tail ht
          simpa using this.symm
        have hdrop : rest.drop sep.length = t := by
          rw [hrest, List.drop_left]
        have htlen : t.length ≤ n := by
          have := congrArg List.length hrest
          simp at this
          omega
        rw [hdrop]
        cases hps : pySplitNE a sep t with
        | nil => exact absurd hps (pySplitNE_ne_nil a sep t)
        | cons p t' =>
          have hj : joinSep (a :: sep) (p :: t') = t := by
            rw [← hps]
            exact ih t htlen
          simp only [joinSep]
          rw [hj, hc, hrest]
          rfl
      · simp only [hpre, if_false]
        cases hps : pySplitNE a sep rest with
        | nil => exact absurd hps (pySplitNE_ne_nil a sep rest)
        | cons h' t' =>
          have hj : joinSep (a :: sep) (h' :: t') = rest := by
            rw [← hps]
            exact ih rest h
          cases t' with
          | nil =>
            simp only [joinSep] at hj ⊢
            rw [hj]
          | cons y t2 =>
            simp only [joinSep] at hj ⊢
            rw [List.cons_append, List.cons_append, hj]

theorem pySplitNE_parts_no_sep (a : Char) (sep : List Char) :
    ∀ (n : Nat) (s : List Char), s.length ≤ n →
      ∀ p ∈ pySplitNE a sep s, containsSub (a :: sep) p = false := by
  intro n
  induction n with
  | zero =>
    intro s h p hp
    have hs : s = [] := List.length_eq_zero.mp (Nat.le_zero.mp h)
    subst hs
    simp [pySplitNE, pySplitF_nil] at hp
    subst hp
    rfl
  | succ n ih =>
    intro s h p hp
    cases s with
    | nil =>
      simp [pySplitNE, pySplitF_nil] at hp
      subst hp
      rfl
    | cons c rest =>
      simp only [List.length_cons, Nat.add_le_add_iff_right] at h
      rw [pySplitNE_cons] at hp
      by_cases hpre : (a :: sep).isPrefixOf (c :: rest)
      · rw [if_pos hpre] at hp
        rcases List.mem_cons.mp hp with h1 | h2
        · subst h1; rfl
        · have hd : (rest.drop sep.length).length ≤ n := by
            rw [List.length_drop]; omega
          exact ih (rest.drop sep.length) hd p h2
      · rw [if_neg hpre] at hp
        cases hps : pySplitNE a sep rest with
        | nil => exact absurd hps (pySplitNE_ne_nil a sep rest)
        | cons h' t' =>
          rw [hps] at hp
          rcases List.mem_cons.mp hp with h1 | h2
          · subst h1
            have hh : containsSub (a :: sep) h' = false := by
              apply ih rest h
              rw [hps]
              exact List.mem_cons_self _ _
            have hnp : (a :: sep).isPrefixOf (c :: h') = false := by
              by_contra hcon
              rw [Bool.not_eq_false] at hcon
              obtain ⟨u, hu⟩ := List.isPrefixOf_iff_prefix.mp hcon
              have hz : ∃ z, rest = h' ++ z := by
                have hj : joinSep (a :: sep) (h' :: t') = rest := by
                  rw [← hps]
                  exact joinSep_pySplitNE a sep n rest h
                cases t' with
                | nil => exact ⟨[], by simpa [joinSep] using hj.symm⟩
                | cons y t2 =>
                  refine ⟨(a :: sep) ++ joinSep (a :: sep) (y :: t2), ?_⟩
                  rw [← hj]
                  simp [joinSep]
              obtain ⟨z, hz⟩ := hz
              apply hpre
              rw [List.isPrefixOf_iff_prefix]
              refine ⟨u ++ z, ?_⟩
              rw [hz, ← List.append_assoc, hu]
              rfl
            show ((a :: sep).isPrefixOf (c :: h') ||
              containsSub (a :: sep) h') = false
            rw [hnp, hh]
            rfl
          · apply ih rest h
            rw [hps]
            exact List.mem_cons_of_mem _ h2

theorem containsSub_false_split (a : Char) (sep : List Char) :
    ∀ (n : Nat) (s : List Char), s.length ≤ n →
      containsSub (a :: sep) s = false → pySplitNE a sep s = [s] := by
  intro n
  induction n with
  | zero =>
    intro s h _
    have hs : s = [] := List.length_eq_zero.mp (Nat.le_zero.mp h)
    subst hs
    simp [pySplitNE, pySplitF_nil]
  | succ n ih =>
    intro s h hcs
    cases s with
    | nil => simp [pySplitNE, pySplitF_nil]
    | cons c rest =>
      simp only [List.length_cons, Nat.add_le_add_iff_right] at h
      have hcs' : ((a :: sep).isPrefixOf (c :: rest) ||
          containsSub (a :: sep) rest) = false := hcs
      rw [Bool.or_eq_false_iff] at hcs'
      obtain ⟨hp1, hp2⟩ := hcs'
      rw [pySplitNE_cons, if_neg (by simp [hp1]), ih rest h hp2]

theorem pySplitStr_dash_no_dash (sp : String)
    (h : containsSub ['-'] sp.data = false) : pySplitStr "-" sp = [sp] := by
  show (pySplitNE '-' [] sp.data).map (fun cs => (⟨cs⟩ : String)) = [sp]
  rw [containsSub_false_split '-' [] sp.data.length sp.data (le_refl _) h]
  rfl

theorem find?_map_insert_eq (k v : String) :
    ∀ (d : List (String × String)), d.any (fun p => p.1 = k) = true →
      (d.map (fun p => if p.1 = k then (k, v) else p)).find?
        (fun p => p.1 = k) = some (k, v) := by
  intro d
  induction d with
  | nil => intro h; simp at h
  | cons p rest ih =>
    intro h
    by_cases hp : p.1 = k
    · simp [hp]
    · have h' : rest.any (fun p => p.1 = k) = true := by
        simp only [List.any_cons, Bool.or_eq_true, decide_eq_true_eq] at h
        rcases h with h | h
        · exact absurd h hp
        · exact h
      simpa [hp] using ih h'

theorem find?_map_insert_ne (k v t : String) (hne : t ≠ k) :
    ∀ (d : List (String × String)),
      (d.map (fun p => if p.1 = k then (k, v) else p)).find?
        (fun p => p.1 = t) = d.find? (fun p => p.1 = t) := by
  have hkt : ¬(k = t) := fun h => hne h.symm
  intro d
  induction d with
  | nil => rfl
  | cons p rest ih =>
    rw [List.map_cons]
    by_cases hp : p.1 = k
    · rw [if_pos hp]
      rw [List.find?_cons_of_neg _ (by simp [hkt])]
      rw [List.find?_cons_of_neg _ (by simp [hp, hkt])]
      exact ih
    · rw [if_neg hp]
      by_cases hpt : p.1 = t
      · rw [List.find?_cons_of_pos _ (by simp [hpt]),
          List.find?_cons_of_pos _ (by simp [hpt])]
      · rw [List.find?_cons_of_neg _ (by simp [hpt]),
          List.find?_cons_of_neg _ (by simp [hpt])]
        exact ih

theorem dictGet_insert_eq (d : List (String × String)) (k v : String) :
    dictGet (dictInsert d k v) k = some v := by
  unfold dictInsert dictGet
  by_cases hany : d.any (fun p => p.1 = k) = true
  · rw [if_pos hany, find?_map_insert_eq k v d hany]
    rfl
  · rw [if_neg hany, List.find?_append]
    have hnone : d.find? (fun p => p.1 = k) = none := by
      rw [List.find?_eq_none]
      intro x hx
      simp only [decide_eq_true_eq]
      intro hxk
      exact hany (List.any_eq_true.mpr ⟨x, hx, by simp [hxk]⟩)
    rw [hnone]
    simp

theorem dictGet_insert_ne (d : List (String × String)) (k v t : String)
    (hne : t ≠ k) : dictGet (dictInsert d k v) t = dictGet d t := by
  have hkt : ¬(k = t) := fun h => hne h.symm
  unfold dictInsert dictGet
  by_cases hany : d.any (fun p => p.1 = k) = true
  · rw [if_pos hany, find?_map_insert_ne k v t hne d]
  · rw [if_neg hany, List.find?_append]
    have h1 : [(k, v)].find? (fun p => p.1 = t) = none := by
      simp [hkt]
    rw [h1]
    cases d.find? (fun p => p.1 = t) <;> rfl

theorem mkDict_get (pairs : List (String × String)) (t : String) :
    dictGet (mkDict pairs) t = (lastVal pairs t).map strip := by
  induction pairs using List.reverseRecOn with
  | nil => rfl
  | append_singleton ps p ih =>
    have hmk : mkDict (ps ++ [p]) = dictInsert (mkDict ps) p.1 (strip p.2) := by
      unfold mkDict
      rw [List.foldl_append]
      rfl
    have hlast : lastVal (ps ++ [p]) t =
        if p.1 = t then some p.2 else lastVal ps t := by
      unfold lastVal
      rw [List.reverse_append]
      by_cases hp : p.1 = t
      · simp [hp]
      · simp [hp]
    rw [hmk, hlast]
    by_cases hp : p.1 = t
    · rw [if_pos hp, ← hp, dictGet_insert_eq]
      rfl
    · rw [if_neg hp, dictGet_insert_ne _ _ _ _ (fun h => hp h.symm), ih]

theorem bookMonogr_ok_name (r : BiblioItem) (m : Node)
    (h : bookMonogr r = .ok m) : nodeName m = "monogr" := by
  unfold bookMonogr at h
  cases h1 : mapO authorship r.authors with
  | none => rw [h1] at h; exact Except.noConfusion h
  | some auths =>
    rw [h1] at h
    cases h2 : mapO editorship r.editors with
    | none => rw [h2] at h; exact Except.noConfusion h
    | some eds =>
      rw [h2] at h
      cases h
      rfl

theorem journalAnalytic_ok_name (r : BiblioItem) (a : Node)
    (h : journalAnalytic r = .ok a) : nodeName a = "analytic" := by
  unfold journalAnalytic at h
  cases h1 : mapO authorship r.authors with
  | none => rw [h1] at h; exact Except.noConfusion h
  | some auths =>
    rw [h1] at h
    cases h
    rfl

theorem journalMonogr_ok_name (r : BiblioItem) (m : Node)
    (h : journalMonogr r = .ok m) : nodeName m = "monogr" := by
  unfold journalMonogr at h
  cases h1 : pagesEl r with
  | error e => rw [h1] at h; exact Except.noConfusion h
  | ok p =>
    rw [h1] at h
    cases h
    rfl

theorem seriesEl_some_name (r : BiblioItem) (s : Node)
    (h : seriesEl r = some s) : nodeName s = "series" := by
  unfold seriesEl at h
  cases h1 : seriesTitle r with
  | none => rw [h1] at h; exact Option.noConfusion h
  | some t =>
    rw [h1] at h
    cases h
    rfl

theorem bookToXML_ok_shape (r : BiblioItem) (n : Node)
    (h : bookToXML r = .ok n) :
    nodeName n = "biblStruct" ∧ hasChildNamed n "analytic" = false := by
  unfold bookToXML at h
  cases hm : bookMonogr r with
  | error e => rw [hm] at h; exact Except.noConfusion h
  | ok m =>
    rw [hm] at h
    cases h
    refine ⟨rfl, ?_⟩
    have hmn : nodeName m = "monogr" := bookMonogr_ok_name r m hm
    show (([m] ++ (seriesEl r).toList).any
      (fun c => nodeName c = "analytic")) = false
    cases hs : seriesEl r with
    | none => simp [hmn]
    | some s =>
      have hsn : nodeName s = "series" := seriesEl_some_name r s hs
      simp [hmn, hsn]

theorem journalToXML_ok_shape (r : BiblioItem) (n : Node)
    (h : journalToXML r = .ok n) :
    nodeName n = "biblStruct" ∧ hasChildNamed n "analytic" = true ∧
      hasChildNamed n "monogr" = true := by
  unfold journalToXML at h
  cases ha : journalAnalytic r with
  | error e => rw [ha] at h; exact Except.noConfusion h
  | ok a =>
    rw [ha] at h
    cases hm : journalMonogr r with
    | error e => rw [hm] at h; exact Except.noConfusion h
    | ok m =>
      rw [hm] at h
      cases h
      have han : nodeName a = "analytic" := journalAnalytic_ok_name r a ha
      have hmn : nodeName m = "monogr" := journalMonogr_ok_name r m hm
      refine ⟨rfl, ?_, ?_⟩
      · show (([a, m] ++ (seriesEl r).toList).any
          (fun c => nodeName c = "analytic")) = true
        simp [han]
      · show (([a, m] ++ (seriesEl r).toList).any
          (fun c => nodeName c = "monogr")) = true
        simp [hmn]

theorem parse_foldl_no_er (extra : List String) :
    ∀ (st : List (List (List String)) × List (List String)),
      (∀ l ∈ extra, tagOf l ≠ "ER") →
      (extra.foldl parseStep st).1 = st.1 := by
  induction extra with
  | nil => intro st _; rfl
  | cons l rest ih =>
    intro st hall
    rw [List.foldl_cons]
    have h1 : ¬((lineSplit l).headD "" = "ER") :=
      hall l (List.mem_cons_self _ _)
    have hstep : parseStep st l = (st.1, st.2 ++ [lineSplit l]) := by
      unfold parseStep
      simp only [if_neg h1]
    rw [hstep]
    exact ih _ (fun x hx => hall x (List.mem_cons_of_mem _ hx))

theorem unpack2_eq_none (e : List String) (h : e.length ≠ 2) :
    unpack2 e = none := by
  match e with
  | [] => rfl
  | [_] => rfl
  | [_, _] => exact absurd rfl h
  | _ :: _ :: _ :: _ => rfl

theorem unpackAll_none_of_mem :
    ∀ (kv : List (List String)) (e : List String), e ∈ kv →
      e.length ≠ 2 → unpackAll kv = none := by
  intro kv
  induction kv with
  | nil => intro e he _; exact absurd he (List.not_mem_nil e)
  | cons a rest ih =>
    intro e he hl
    rcases List.mem_cons.mp he with h1 | h2
    · subst h1
      unfold unpackAll
      rw [unpack2_eq_none e hl]
    · unfold unpackAll
      cases unpack2 a with
      | none => rfl
      | some p =>
        rw [ih e h2 hl]

theorem mkBiblioItem_error_of_bad_entry (kv : List (List String))
    (e : List String) (he : e ∈ kv) (hl : e.length ≠ 2) :
    mkBiblioItem kv = .error () := by
  unfold mkBiblioItem
  rw [unpackAll_none_of_mem kv e he hl]

theorem fixApost_catchall (c0 : Char) (rest : List Char)
    (h1 : ∀ (c2 c3 : Char) (rest3 : List Char),
      rest = '\'' :: c2 :: c3 :: rest3 → False)
    (h2 : ∀ (c2 : Char), rest = ['\'', c2] → False) :
    fixApost (c0 :: rest) = c0 :: fixApost rest := by
  rw [fixApost.eq_def]
  split
  · rename_i c0' c2 c3 rest3 heq
    injection heq with _ hrest
    exact absurd (h1 c2 c3 rest3 hrest) not_false
  · rename_i c0' c2 heq
    injection heq with _ hrest
    exact absurd (h2 c2 hrest) not_false
  · rename_i heq2
    injection heq2 with hc hrest
    rw [hc, hrest]
  · rename_i heq2
    exact absurd heq2 (by simp)

theorem hasPattern_catchall (c0 : Char) (rest : List Char)
    (h1 : ∀ (c2 c3 : Char) (rest3 : List Char),
      rest = '\'' :: c2 :: c3 :: rest3 → False)
    (h2 : ∀ (c2 : Char), rest = ['\'', c2] → False) :
    hasPattern (c0 :: rest) = hasPattern rest := by
  rw [hasPattern.eq_def]
  split
  · rename_i c0' c2 c3 rest3 heq
    injection heq with _ hrest
    exact absurd (h1 c2 c3 rest3 hrest) not_false
  · rename_i c0' c2 heq
    injection heq with _ hrest
    exact absurd (h2 c2 hrest) not_false
  · rename_i heq2
    injection heq2 with hc hrest
    rw [hrest]
  · rename_i heq2
    exact absurd heq2 (by simp)

theorem fixApost_id_iff (s : List Char) :
    fixApost s = s ↔ hasPattern s = false := by
  induction s using fixApost.induct with
  | case1 c0 c2 c3 rest3 hsp ih =>
    simp only [fixApost, hasPattern, hsp, if_true]
    simp only [List.cons.injEq, true_and]
    exact ih
  | case2 c0 c2 c3 rest3 hsp hstd ih =>
    have hsp' : pyIsSpace c0 = false := by simpa using hsp
    simp only [fixApost, hasPattern, hsp', hstd, Bool.false_eq_true,
      if_false, if_true]
    simp [List.cons.injEq]
  | case3 c0 c2 c3 rest3 hsp hstd hell ih =>
    have hsp' : pyIsSpace c0 = false := by simpa using hsp
    have hstd' : isSTD c2 = false := by simpa using hstd
    simp only [fixApost, hasPattern, hsp', hstd', hell, Bool.false_eq_true,
      if_false, if_true]
    simp [List.cons.injEq]
  | case4 c0 c2 c3 rest3 hsp hstd hell ih =>
    have hsp' : pyIsSpace c0 = false := by simpa using hsp
    have hstd' : isSTD c2 = false := by simpa using hstd
    have hell' : (isEll c2 && isEll c3) = false := by simpa using hell
    simp only [fixApost, hasPattern, hsp', hstd', hell', Bool.false_eq_true,
      if_false]
    simp only [List.cons.injEq, true_and]
    exact ih
  | case5 c0 c2 hsp ih =>
    simp only [fixApost, hasPattern, hsp, if_true]
  | case6 c0 c2 hsp hstd =>
    have hsp' : pyIsSpace c0 = false := by simpa using hsp
    simp only [fixApost, hasPattern, hsp', hstd, Bool.false_eq_true,
      if_false, if_true]
    simp [List.cons.injEq]
  | case7 c0 c2 hsp hstd ih =>
    have hsp' : pyIsSpace c0 = false := by simpa using hsp
    have hstd' : isSTD c2 = false := by simpa using hstd
    simp only [fixApost, hasPattern, hsp', hstd', Bool.false_eq_true,
      if_false]
  | case8 c0 rest h1 h2 ih =>
    rw [fixApost_catchall c0 rest (fun a b c h => h1 a b c h)
      (fun a h => h2 a h)]
    rw [hasPattern_catchall c0 rest (fun a b c h => h1 a b c h)
      (fun a h => h2 a h)]
    simp only [List.cons.injEq, true_and]
    exact ih
  | case9 => simp [fixApost, hasPattern]

theorem map_mk_data (l : List (List Char)) :
    (l.map (fun cs => (⟨cs⟩ : String))).map String.data = l := by
  induction l with
  | nil => rfl
  | cons x xs ih => simp [ih]

/-! ### Claim theorems -/

/-- C3: for every record whose field mapping has `SP` with value
`"100-110"` and no `EP` tag, `pages()` returns a `biblScope` element
with unit attribute `"page"`, text value `"100–110"` (en dash), and
attributes `from="100"` and `to="110"`. -/
theorem pages_sp_range_split (r : BiblioItem)
    (hsp : getVal r "SP" = some "100-110")
    (hep : getVal r "EP" = none) :
    pagesEl r = .ok (some (Node.elem "biblScope"
      [("unit", "page"), ("from", "100"), ("to", "110")]
      [.text "100–110"])) := by
  unfold pagesEl
  rw [hsp, hep]
  rfl

/-- Witness for `pages_sp_range_split` at a concrete journal record. -/
theorem pages_sp_range_split_witness :
    pagesEl ⟨[], [], [("SP", "100-110")]⟩ = .ok (some (Node.elem "biblScope"
      [("unit", "page"), ("from", "100"), ("to", "110")]
      [.text "100–110"])) :=
  pages_sp_range_split ⟨[], [], [("SP", "100-110")]⟩ rfl rfl

/-- C2: for every record whose mapping has an `SP` value containing no
`-` and no `EP` tag, `pages()` does not log-and-skip as documented: the
`IndexError` is caught, but the subsequent truthiness test reads the
never-assigned `end_page`, raising an uncaught `UnboundLocalError`, so
the record's XML fragment is not produced at all. -/
theorem pages_missing_end_crashes (r : BiblioItem) (sp : String)
    (hsp : getVal r "SP" = some sp)
    (hep : getVal r "EP" = none)
    (hnd : containsSub ['-'] sp.data = false) :
    pagesEl r = .error () ∧ journalToXML r = .error () := by
  have hpages : pagesEl r = .error () := by
    have h1 : (pySplitStr "-" sp).get? 1 = none := by
      rw [pySplitStr_dash_no_dash sp hnd]
      rfl
    unfold pagesEl
    rw [hsp, hep]
    simp only [h1]
  refine ⟨hpages, ?_⟩
  unfold journalToXML
  cases ha : journalAnalytic r with
  | error e => cases e; rfl
  | ok a =>
    unfold journalMonogr
    rw [hpages]

/-- Witness for `pages_missing_end_crashes` at a concrete journal
record with `SP = "100"` and no `EP`. -/
theorem pages_missing_end_crashes_witness :
    pagesEl ⟨[], [], [("TY", "JOUR"), ("SP", "100")]⟩ = .error () ∧
      journalToXML ⟨[], [], [("TY", "JOUR"), ("SP", "100")]⟩ = .error () :=
  pages_missing_end_crashes ⟨[], [], [("TY", "JOUR"), ("SP", "100")]⟩
    "100" rfl rfl (by decide)

/-- C4 counterexample: on `"Smith, John, Jr."` the code puts the
forename child first (the claim says the surname child precedes it) and
takes only the segment between the first two commas as the forename
(the claim says the entire trimmed remainder after the first comma,
`"John, Jr."`). -/
theorem person_order_counterexample :
    person "Smith, John, Jr." = some (Node.elem "persName" []
      [createTextElement "forename" "John",
       createTextElement "surname" "Smith"])
    ∧ (person "Smith, John, Jr.").map childNames =
        some ["forename", "surname"]
    ∧ (person "Smith, John, Jr.").map childNames ≠
        some ["surname", "forename"]
    ∧ ("John" : String) ≠ "John, Jr." :=
  ⟨rfl, rfl, by decide, by decide⟩

/-- C4 amended: `person` splits on every comma; the `persName` element
carries a forename child first, holding the trimmed segment between the
first and second commas (the trimmed remainder when only one comma is
present), then a surname child holding the trimmed part before the
first comma. -/
theorem person_structure (name : String) (n0 n1 : String)
    (rest : List String)
    (h : pySplitStr "," name = n0 :: n1 :: rest) :
    person name = some (Node.elem "persName" []
      [createTextElement "forename" (strip n1),
       createTextElement "surname" (strip n0)])
    ∧ containsSub [','] n0.data = false
    ∧ containsSub [','] n1.data = false := by
  have hmap : (pySplitNE ',' [] name.data).map
      (fun cs => (⟨cs⟩ : String)) = n0 :: n1 :: rest := h
  refine ⟨?_, ?_, ?_⟩
  · unfold person
    rw [h]
  · cases hps : pySplitNE ',' [] name.data with
    | nil => rw [hps] at hmap; exact List.noConfusion hmap
    | cons l0 ps' =>
      rw [hps] at hmap
      cases ps' with
      | nil => simp only [List.map_cons, List.map_nil] at hmap; injection hmap with _ h2; exact List.noConfusion h2
      | cons l1 ps'' =>
        simp only [List.map_cons, List.cons.injEq] at hmap
        obtain ⟨h0, _, _⟩ := hmap
        have hd : n0.data = l0 := by rw [← h0]
        rw [hd]
        have hmem : l0 ∈ pySplitNE ',' [] name.data := by
          rw [hps]
          exact List.mem_cons_self _ _
        exact pySplitNE_parts_no_sep ',' [] name.data.length name.data
          (le_refl _) l0 hmem
  · cases hps : pySplitNE ',' [] name.data with
    | nil => rw [hps] at hmap; exact List.noConfusion hmap
    | cons l0 ps' =>
      rw [hps] at hmap
      cases ps' with
      | nil => simp only [List.map_cons, List.map_nil] at hmap; injection hmap with _ h2; exact List.noConfusion h2
      | cons l1 ps'' =>
        simp only [List.map_cons, List.cons.injEq] at hmap
        obtain ⟨_, h1, _⟩ := hmap
        have hd : n1.data = l1 := by rw [← h1]
        rw [hd]
        have hmem : l1 ∈ pySplitNE ',' [] name.data := by
          rw [hps]
          exact List.mem_cons_of_mem _ (List.mem_cons_self _ _)
        exact pySplitNE_parts_no_sep ',' [] name.data.length name.data
          (le_refl _) l1 hmem

/-- Witness for `person_structure` on `"Smith, John A."`. -/
theorem person_structure_witness :
    person "Smith, John A." = some (Node.elem "persName" []
      [createTextElement "forename" "John A.",
       createTextElement "surname" "Smith"])
    ∧ containsSub [','] "Smith".data = false
    ∧ containsSub [','] " John A.".data = false :=
  person_structure "Smith, John A." "Smith" " John A." [] (by decide)

/-- C5 counterexample: the RIS date `2020/5/1/Spring` has a season, its
display value is `"Spring 2020"`, but `toAttr()` returns `"2020-5"`,
not the bare year the claim asserts. -/
theorem risdate_season_attr_counterexample :
    mkRISDate "2020/5/1/Spring" = some ⟨"2020", some "5", some "Spring"⟩
    ∧ truthy (RISDate.season ⟨"2020", some "5", some "Spring"⟩) = true
    ∧ RISDate.toValue ⟨"2020", some "5", some "Spring"⟩ =
        some "Spring 2020"
    ∧ RISDate.toAttr ⟨"2020", some "5", some "Spring"⟩ = "2020-5"
    ∧ ("2020-5" : String) ≠ "2020" :=
  ⟨rfl, rfl, rfl, rfl, by decide⟩

/-- C5 amended: for every validly constructed RIS date with a non-empty
season, `toValue()` returns `"{season} {year}"`; `toAttr()` never uses
the season, returning `"{year}-{month}"` when a non-empty month is also
present and `"{year}"` otherwise. -/
theorem risdate_season_display (v : String) (d : RISDate)
    (_hc : mkRISDate v = some d) (hs : truthy d.season = true) :
    d.toValue = some (d.season.getD "" ++ " " ++ d.year)
    ∧ d.toAttr = (if truthy d.month then d.year ++ "-" ++ d.month.getD ""
        else d.year)
    ∧ RISDate.toAttr ⟨d.year, d.month, none⟩ = d.toAttr := by
  refine ⟨?_, rfl, rfl⟩
  unfold RISDate.toValue
  rw [if_pos hs]

/-- Witness for `risdate_season_display` at `2020/5/1/Spring`. -/
theorem risdate_season_display_witness :
    RISDate.toValue ⟨"2020", some "5", some "Spring"⟩ = some "Spring 2020"
    ∧ RISDate.toAttr ⟨"2020", some "5", some "Spring"⟩ = "2020-5"
    ∧ RISDate.toAttr ⟨"2020", some "5", none⟩ = "2020-5" :=
  risdate_season_display "2020/5/1/Spring" ⟨"2020", some "5", some "Spring"⟩
    rfl rfl

/-- C6 counterexample: `"I'd"` is rewritten (the claim says an
apostrophe followed by `d` is left unchanged), and `" 's"` is left
unchanged (the claim says an apostrophe followed by `s` is rewritten,
but the pattern also requires a preceding non-whitespace character). -/
theorem typography_claim_counterexample :
    fixTypog "I'd" = "I’d" ∧ fixTypog "I'd" ≠ "I'd"
    ∧ fixTypog " 's" = " 's" :=
  ⟨rfl, by decide, rfl⟩

/-- C6 amended: an ASCII apostrophe preceded by a non-whitespace
character and followed by `s`, `t`, `d` (case-insensitive, the class
`[std]`) or `ll` is rewritten to a typographic apostrophe with the
surrounding characters preserved; a value is unchanged exactly when the
pattern matches nowhere in it. -/
theorem typography_characterization :
    (∀ s : List Char, fixApost s = s ↔ hasPattern s = false)
    ∧ (∀ (c0 c2 : Char) (rest : List Char), pyIsSpace c0 = false →
        isSTD c2 = true →
        fixApost (c0 :: '\'' :: c2 :: rest) =
          c0 :: '’' :: c2 :: fixApost rest)
    ∧ (∀ (c0 c2 c3 : Char) (rest : List Char), pyIsSpace c0 = false →
        isSTD c2 = false → isEll c2 = true → isEll c3 = true →
        fixApost (c0 :: '\'' :: c2 :: c3 :: rest) =
          c0 :: '’' :: c2 :: c3 :: fixApost rest) := by
  refine ⟨fixApost_id_iff, ?_, ?_⟩
  · intro c0 c2 rest hsp hstd
    cases rest with
    | nil => simp [fixApost, hsp, hstd]
    | cons c3 rest3 => simp [fixApost, hsp, hstd]
  · intro c0 c2 c3 rest hsp hstd h2 h3
    simp [fixApost, hsp, hstd, h2, h3]

/-- Witness for `typography_characterization` at concrete strings. -/
theorem typography_characterization_witness :
    (fixApost "don't".data = "don't".data ↔
      hasPattern "don't".data = false)
    ∧ fixApost ['I', '\'', 'd'] = 'I' :: '’' :: 'd' :: fixApost []
    ∧ fixApost ['i', '\'', 'l', 'l'] =
        'i' :: '’' :: 'l' :: 'l' :: fixApost [] :=
  ⟨typography_characterization.1 _,
   typography_characterization.2.1 'I' 'd' [] (by decide) (by decide),
   typography_characterization.2.2 'i' 'l' 'l' [] (by decide) (by decide)
     (by decide) (by decide)⟩

/-- C7 counterexample: a line whose value contains the separator is
split into three parts, not one tag/value pair, and the record is not
constructed (the tuple unpacking in the constructor raises). -/
theorem parse_first_separator_counterexample :
    lineSplit "TI  - A  - B\n" = ["TI", " A", " B"]
    ∧ lineSplit "TI  - A  - B\n" ≠ ["TI", " A  - B"]
    ∧ addRecord [] [["TY", " JOUR"], ["TI", " A", " B"]] = .error () :=
  ⟨rfl, by decide, rfl⟩

/-- C7 amended: `parse` splits each line on every occurrence of the
separator (the parts contain no separator and rejoining them with the
separator reconstructs the newline-stripped line); a line whose value
contains the separator therefore yields three or more fields, and the
record's construction then fails with an uncaught `ValueError` rather
than succeeding. -/
theorem parse_splits_on_every_separator (line : String) :
    joinSep fieldSeparator.data ((lineSplit line).map String.data) =
      (dropLastChar line).data
    ∧ (∀ p ∈ lineSplit line,
        containsSub fieldSeparator.data p.data = false)
    ∧ (∀ (kv : List (List String)) (e : List String), e ∈ kv →
        e.length ≠ 2 → mkBiblioItem kv = .error ()) := by
  refine ⟨?_, ?_, ?_⟩
  · show joinSep (' ' :: [' ', '-'])
      (((pySplitNE ' ' [' ', '-'] (dropLastChar line).data).map
        (fun cs => (⟨cs⟩ : String))).map String.data) = _
    rw [map_mk_data]
    exact joinSep_pySplitNE ' ' [' ', '-'] (dropLastChar line).data.length
      (dropLastChar line).data (le_refl _)
  · intro p hp
    show containsSub (' ' :: [' ', '-']) p.data = false
    have hp' : p ∈ (pySplitNE ' ' [' ', '-']
        (dropLastChar line).data).map (fun cs => (⟨cs⟩ : String)) := hp
    obtain ⟨cs, hcs, hmk⟩ := List.mem_map.mp hp'
    have hd : p.data = cs := by rw [← hmk]
    rw [hd]
    exact pySplitNE_parts_no_sep ' ' [' ', '-']
      (dropLastChar line).data.length (dropLastChar line).data
      (le_refl _) cs hcs
  · intro kv e he hl
    exact mkBiblioItem_error_of_bad_entry kv e he hl

/-- Witness for `parse_splits_on_every_separator` on a line whose value
contains the separator. -/
theorem parse_splits_on_every_separator_witness :
    joinSep fieldSeparator.data
      ((lineSplit "TI  - A  - B\n").map String.data) =
      (dropLastChar "TI  - A  - B\n").data
    ∧ containsSub fieldSeparator.data ("TI" : String).data = false
    ∧ mkBiblioItem [["TY", " JOUR"], ["TI", " A", " B"]] = .error () :=
  ⟨(parse_splits_on_every_separator "TI  - A  - B\n").1,
   (parse_splits_on_every_separator "TI  - A  - B\n").2.1 "TI" (by decide),
   (parse_splits_on_every_separator "TI  - A  - B\n").2.2
     [["TY", " JOUR"], ["TI", " A", " B"]] ["TI", " A", " B"]
     (by decide) (by decide)⟩

/-- C9: the flat lookup table keeps only the last value per tag (every
lookup other than the author and editor sequences sees the value of the
last occurrence, trimmed), while the `AU`/`A1` author sequence and the
`A3` editor sequence retain all occurrences in input order. -/
theorem duplicate_tags_last_wins (kv : List (List String))
    (pairs : List (String × String)) (r : BiblioItem)
    (hu : unpackAll kv = some pairs) (hr : mkBiblioItem kv = .ok r) :
    (∀ t, getVal r t = (lastVal pairs t).map strip)
    ∧ r.authors = (pairs.filter (fun p => p.1 = "AU" || p.1 = "A1")).map
        (fun p => strip p.2)
    ∧ r.editors = (pairs.filter (fun p => p.1 = "A3")).map
        (fun p => strip p.2) := by
  unfold mkBiblioItem at hr
  rw [hu] at hr
  cases hr
  refine ⟨?_, rfl, rfl⟩
  intro t
  exact mkDict_get pairs t

/-- Witness for `duplicate_tags_last_wins`: with two `TI` lines the
lookup sees the second one. -/
theorem duplicate_tags_last_wins_witness :
    getVal ⟨["A, B", "C, D"], [],
      [("TY", "JOUR"), ("TI", "Second"), ("AU", "C, D")]⟩ "TI" =
      some "Second" :=
  (duplicate_tags_last_wins
    [["TY", " JOUR"], ["TI", " First"], ["TI", " Second"],
      ["AU", " A, B"], ["AU", " C, D"]]
    [("TY", " JOUR"), ("TI", " First"), ("TI", " Second"),
      ("AU", " A, B"), ("AU", " C, D")]
    ⟨["A, B", "C, D"], [],
      [("TY", "JOUR"), ("TI", "Second"), ("AU", "C, D")]⟩
    rfl rfl).1 "TI"

/-- C10: `parse` finalizes a record only on a line whose tag is `ER`;
pairs accumulated after the last such line are silently discarded at
end of file, and a final `ER` line with no trailing newline has its
last character stripped, reading as tag `E`, so it does not finalize. -/
theorem parse_discards_after_last_er (pre extra : List String)
    (hne : ∀ l ∈ extra, tagOf l ≠ "ER") :
    parseBlocks (pre ++ extra) = parseBlocks pre
    ∧ tagOf "ER" = "E"
    ∧ parseBlocks ["TY  - BOOK\n", "ER"] = [] := by
  refine ⟨?_, rfl, rfl⟩
  unfold parseBlocks
  rw [List.foldl_append]
  exact parse_foldl_no_er extra _ hne

/-- Witness for `parse_discards_after_last_er`: a trailing block with
no `ER` line produces nothing. -/
theorem parse_discards_after_last_er_witness :
    parseBlocks ["TY  - JOUR\n", "ER  - \n", "AU  - Smith, J.\n", "ER"] =
      parseBlocks ["TY  - JOUR\n", "ER  - \n"] :=
  (parse_discards_after_last_er ["TY  - JOUR\n", "ER  - \n"]
    ["AU  - Smith, J.\n", "ER"] (by decide)).1

/-- C8: `Book.monogr` appends the `series` element to itself instead of
to the monograph root, so the returned `monogr` never carries a
`series` child even when a series title (`T2`) is present; the separate
base-class `series()` call in `toXML` still attaches one to the
`biblStruct`. -/
theorem book_monogr_series_self_append :
    (bookMonogr ⟨[], [], [("TY", "BOOK"), ("T2", "The Series")]⟩).map
      (fun m => hasChildNamed m "series") = .ok false
    ∧ seriesEl ⟨[], [], [("TY", "BOOK"), ("T2", "The Series")]⟩ =
        some (Node.elem "series" []
          [Node.elem "title" [("level", "s")] [.text "The Series"]])
    ∧ (bookToXML ⟨[], [], [("TY", "BOOK"), ("T2", "The Series")]⟩).map
        childNames = .ok ["monogr", "series"] :=
  ⟨rfl, rfl, rfl⟩

/-- C1: two records added in order, a `BOOK` then a `JOUR`, render (when
rendering raises no exception) to a `listBibl` document with exactly two
`biblStruct` children in input order; the book fragment has no
`analytic` child, the journal fragment has both an `analytic` and a
`monogr` child. -/
theorem catalog_book_journal_structure
    (A B : List (List String))
    (a0 b0 : List String) (tyA tyB : String)
    (hA0 : A.get? 0 = some a0) (hA1 : a0.get? 1 = some tyA)
    (hA2 : strip tyA = "BOOK")
    (hB0 : B.get? 0 = some b0) (hB1 : b0.get? 1 = some tyB)
    (hB2 : strip tyB = "JOUR")
    (recs1 recs2 : List TypedRec) (doc : Node)
    (h1 : addRecord [] A = .ok recs1)
    (h2 : addRecord recs1 B = .ok recs2)
    (h3 : catalogToXML recs2 = .ok doc) :
    ∃ (rA rB : BiblioItem) (nA nB : Node),
      mkBiblioItem A = .ok rA ∧ mkBiblioItem B = .ok rB
      ∧ bookToXML rA = .ok nA ∧ journalToXML rB = .ok nB
      ∧ doc = .elem "listBibl" [] [nA, nB]
      ∧ nodeName nA = "biblStruct" ∧ nodeName nB = "biblStruct"
      ∧ hasChildNamed nA "analytic" = false
      ∧ hasChildNamed nB "analytic" = true
      ∧ hasChildNamed nB "monogr" = true := by
  unfold addRecord at h1 h2
  simp only [hA0, hA1, hA2] at h1
  simp only [hB0, hB1, hB2] at h2
  simp only [if_true] at h2
  cases hmA : mkBiblioItem A with
  | error e => rw [hmA] at h1; exact Except.noConfusion h1
  | ok rA =>
    rw [hmA] at h1
    have hrecs1 : recs1 = [⟨.book, rA⟩] := by
      cases h1
      rfl
    subst hrecs1
    cases hmB : mkBiblioItem B with
    | error e => rw [hmB] at h2; exact Except.noConfusion h2
    | ok rB =>
      rw [hmB] at h2
      have hrecs2 : recs2 = [⟨.book, rA⟩, ⟨.journal, rB⟩] := by
        cases h2
        rfl
      subst hrecs2
      unfold catalogToXML at h3
      have hrender1 : renderRecord ⟨.book, rA⟩ = bookToXML rA := rfl
      have hrender2 : renderRecord ⟨.journal, rB⟩ = journalToXML rB := rfl
      simp only [mapE, hrender1, hrender2] at h3
      cases hbA : bookToXML rA with
      | error e => rw [hbA] at h3; exact Except.noConfusion h3
      | ok nA =>
        rw [hbA] at h3
        cases hbB : journalToXML rB with
        | error e => rw [hbB] at h3; exact Except.noConfusion h3
        | ok nB =>
          rw [hbB] at h3
          have hdoc : doc = .elem "listBibl" [] [nA, nB] := by
            cases h3
            rfl
          obtain ⟨hnA1, hnA2⟩ := bookToXML_ok_shape rA nA hbA
          obtain ⟨hnB1, hnB2, hnB3⟩ := journalToXML_ok_shape rB nB hbB
          exact ⟨rA, rB, nA, nB, rfl, rfl, hbA, hbB, hdoc,
            hnA1, hnB1, hnA2, hnB2, hnB3⟩

/-- Witness for `catalog_book_journal_structure` at a concrete two-record
catalog. -/
theorem catalog_book_journal_structure_witness :
    ∃ (rA rB : BiblioItem) (nA nB : Node),
      mkBiblioItem [["TY", " BOOK"], ["TI", " A Book"]] = .ok rA
      ∧ mkBiblioItem [["TY", " JOUR"]] = .ok rB
      ∧ bookToXML rA = .ok nA ∧ journalToXML rB = .ok nB
      ∧ Node.elem "listBibl" []
          [Node.elem "biblStruct" []
            [Node.elem "monogr" []
              [Node.elem "title" [] [.text "A Book"],
               Node.elem "imprint" [] []]],
           Node.elem "biblStruct" []
            [Node.elem "analytic" [] [],
             Node.elem "monogr" [] [Node.elem "imprint" [] []]]] =
          Node.elem "listBibl" [] [nA, nB]
      ∧ nodeName nA = "biblStruct" ∧ nodeName nB = "biblStruct"
      ∧ hasChildNamed nA "analytic" = false
      ∧ hasChildNamed nB "analytic" = true
      ∧ hasChildNamed nB "monogr" = true :=
  catalog_book_journal_structure
    [["TY", " BOOK"], ["TI", " A Book"]] [["TY", " JOUR"]]
    ["TY", " BOOK"] ["TY", " JOUR"] " BOOK" " JOUR"
    rfl rfl rfl rfl rfl rfl
    [⟨.book, ⟨[], [], [("TY", "BOOK"), ("TI", "A Book")]⟩⟩]
    [⟨.book, ⟨[], [], [("TY", "BOOK"), ("TI", "A Book")]⟩⟩,
     ⟨.journal, ⟨[], [], [("TY", "JOUR")]⟩⟩]
    (Node.elem "listBibl" []
      [Node.elem "biblStruct" []
        [Node.elem "monogr" []
          [Node.elem "title" [] [.text "A Book"],
           Node.elem "imprint" [] []]],
       Node.elem "biblStruct" []
        [Node.elem "analytic" [] [],
         Node.elem "monogr" [] [Node.elem "imprint" [] []]]])
    rfl rfl rfl

end Ristei
